import Mathlib

/-!
Verification of the secure resilient execution engine of the Lumen agent
system: the SecretVault (secret redaction / restoration), the PolicyGate
command classifier, and the resilient iteration loop of
`lib/iterationLoop.js`, together with the orchestrator pipeline of
`schemas/agentOrchestrator.js` (`processUserRequest`).

Texts (user queries, prompts sent to the model, terminal commands) are
modelled as lists of string fragments (`Text`); a fragment is a word or a
line of the underlying JavaScript string.  The loop, whose source is
`executeStepsWithResilience` and its helpers, is embedded as a pure step
function on an explicit state plus an iteration-bounded driver mirroring
the `while` loop's `iteration < maxIterations` guard.  The behaviour of
the external model ("the Oracle") and of the command runner is an
explicit environment parameter, so theorems quantify over every possible
behaviour, including rejected (thrown) calls.

The sources of `lib/secretRedactor.js` and `lib/terminalExecutor.js` are
not part of the repository snapshot (only their callers and the
documentation are), so the SecretVault and the PolicyGate are modelled
from the specification, as marked in their doc comments.
-/

namespace Lumen

/-! ## Definitions -/

/-- A text is a list of fragments (words or lines of the JS string). -/
abbrev Text := List String

/-! ### Decimal rendering of naturals, with provable injectivity

Used to build the `\x7b\x7bTYPE_N\x7d\x7d` placeholder tokens of the
secret redactor.  A fuel-based structural recursion is used so that all
functions evaluate by `decide`/`rfl`. -/

/-- Base-10 digits of `n`, least significant first, with explicit fuel. -/

def digitsRev : Nat → Nat → List Nat
  | _, 0 => []
  | 0, _ + 1 => []
  | fuel + 1, n + 1 => (n + 1) % 10 :: digitsRev fuel ((n + 1) / 10)

/-- Base-10 digits of `n`, least significant first. -/
def natDigits (n : Nat) : List Nat := digitsRev n n

/-- Decode a little-endian base-10 digit list. -/
def decodeDigits : List Nat → Nat
  | [] => 0
  | d :: ds => d + 10 * decodeDigits ds

/-- The character for a single decimal digit. -/
def digitChar (d : Nat) : Char := Char.ofNat (48 + d)

/-- Decimal rendering of `n` as characters, most significant first. -/
def digitsChars (n : Nat) : List Char :=
  if n = 0 then [digitChar 0] else ((natDigits n).map digitChar).reverse

/-! ### Placeholder tokens -/

/-- The `\x7b` character, written via its code point. -/

def lcurl : Char := Char.ofNat 123

/-- The `\x7d` character, written via its code point. -/
def rcurl : Char := Char.ofNat 125

/-- Character list of the placeholder token `\x7b\x7bTY_N\x7d\x7d`. -/
def tokChars (ty : List Char) (n : Nat) : List Char :=
  lcurl :: lcurl :: ty ++ '_' :: digitsChars n ++ [rcurl, rcurl]

/-- The placeholder token `\x7b\x7bTY_N\x7d\x7d` as a string. -/
def tok (ty : String) (n : Nat) : String := String.mk (tokChars ty.data n)

/-- The secret-type names of the redactor's detectors. -/
def secretTypes : List String := ["PASSWORD", "TOKEN", "KEY", "HEX"]

/-! ### Placeholder recognition -/

/-- Strip an exact character prefix, returning the remainder. -/

def stripPfx : List Char → List Char → Option (List Char)
  | [], l => some l
  | _ :: _, [] => none
  | a :: as, b :: bs => if a = b then stripPfx as bs else none

/-- Digits (possibly none) followed by exactly `\x7d\x7d`. -/
def digitsBraces : List Char → Bool
  | [] => false
  | c :: rest => if c.isDigit then digitsBraces rest else ((c == rcurl) && (rest == [rcurl]))

/-- Whether `l` is `\x7b\x7bty_<digits>\x7d\x7d`. -/
def placeholderOf (ty : List Char) (l : List Char) : Bool :=
  match stripPfx (lcurl :: lcurl :: ty ++ ['_']) l with
  | none => false
  | some rest => digitsBraces rest

/-- Whether a fragment is a placeholder token of one of the known secret types. -/
def isPlaceholder (w : String) : Bool :=
  secretTypes.any (fun ty => placeholderOf ty.data w.data)

/-! ### SecretVault

Modelled from the spec: the source of `lib/secretRedactor.js` (class
`SecretRedactor` with methods `redact` and `substitute`) is not part of
the repository snapshot; only its callers (`schemas/agentOrchestrator.js`
and the examples) are.  Per the specification, `redact` applies an
ordered list of detectors — explicit credential-context patterns
(`password:`, `token:`, `key:`) before a generic long-hex detector —
replacing each match with a placeholder `\x7b\x7bTYPE_N\x7d\x7d`;
identical secret values collapse to one token; literal strings that look
like placeholders are not treated as secrets.  `substitute` reverses
known tokens and reports the count of unresolved tokens. -/

/-- Whether a character is a hexadecimal digit. -/

def hexChar (c : Char) : Bool :=
  c.isDigit || ('a' ≤ c && c ≤ 'f') || ('A' ≤ c && c ≤ 'F')

/-- Generic detector: a long (32+ characters) hexadecimal fragment. -/
def isLongHex (w : String) : Bool :=
  decide (32 ≤ w.data.length) && w.data.all hexChar

/-- Modelled from the spec: the ordered detector list of the missing
`lib/secretRedactor.js` — credential-context detectors first, then the
generic long-hex detector; placeholder-shaped fragments are never
treated as secrets.  Returns the secret-type name of the first detector
matching the fragment `w` with preceding fragment `prev`. -/
def detectType (prev w : String) : Option String :=
  if isPlaceholder w then none
  else if prev = "password:" then some "PASSWORD"
  else if prev = "token:" then some "TOKEN"
  else if prev = "key:" then some "KEY"
  else if isLongHex w then some "HEX"
  else none

/-- Lookup of a placeholder token in the mapping (first match). -/
def mlookup (t : String) : List (String × String) → Option String
  | [] => none
  | p :: rest => if p.1 = t then some p.2 else mlookup t rest

/-- Reuse lookup: the token already assigned to a secret value, if any. -/
def findTokenFor (v : String) : List (String × String) → Option String
  | [] => none
  | p :: rest => if p.2 = v then some p.1 else findTokenFor v rest

/-- Modelled from the spec: the redaction pass of the missing
`lib/secretRedactor.js`.  Walks the fragments carrying the previous
fragment for context; each detected secret is replaced by its already
assigned token, or by a fresh `\x7b\x7bTYPE_N\x7d\x7d` token with the
next global index, which is recorded in the mapping. -/
def redactGo : String → List String → List (String × String) → List String × List (String × String)
  | _, [], m => ([], m)
  | prev, w :: rest, m =>
    match detectType prev w with
    | none =>
      let r := redactGo w rest m
      (w :: r.1, r.2)
    | some ty =>
      match findTokenFor w m with
      | some t =>
        let r := redactGo w rest m
        (t :: r.1, r.2)
      | none =>
        let t := tok ty (m.length + 1)
        let r := redactGo w rest (m ++ [(t, w)])
        (t :: r.1, r.2)

/-- Modelled from the spec: `SecretRedactor.redact`.  Returns the safe
text and the produced placeholder-to-value mapping. -/
def redact (t : Text) : Text × List (String × String) := redactGo "" t []

/-- Modelled from the spec: `SecretRedactor.substitute`.  Restores known
tokens from the mapping; unknown tokens are left intact and counted. -/
def substituteGo (m : List (String × String)) : List String → List String × Nat
  | [] => ([], 0)
  | w :: rest =>
    let r := substituteGo m rest
    if isPlaceholder w then
      match mlookup w m with
      | some v => (v :: r.1, r.2)
      | none => (w :: r.1, r.2 + 1)
    else (w :: r.1, r.2)

/-- Modelled from the spec: `SecretRedactor.substitute` on a text, with
the count of unresolved tokens. -/
def substitute (t : Text) (m : List (String × String)) : Text × Nat := substituteGo m t

/-- The mapping invariant: the `i`-th entry from level `k` is keyed by a
token of a known secret type with index `k + i + 1`. -/
def Keyed : Nat → List (String × String) → Prop
  | _, [] => True
  | k, p :: rest => (∃ ty ∈ secretTypes, p.1 = tok ty (k + 1)) ∧ Keyed (k + 1) rest

/-! ### PolicyGate

Modelled from the spec: the source of `lib/terminalExecutor.js`
(`executeAgentCommand` and its dangerous-pattern gate) is not part of
the repository snapshot; only its callers and the documented
`DANGEROUS_PATTERNS` table (README, `examples/advanced-coordination.js`)
are.  A rule is a list of fragments that must occur in order inside the
command; the rule table lists the documented destructive patterns. -/

/-- Find the first occurrence of fragment `f` and return the remainder
of the character list after it. -/
def dropToMatch (f : List Char) : List Char → Option (List Char)
  | [] =>
    match stripPfx f [] with
    | some r => some r
    | none => none
  | c :: rest =>
    match stripPfx f (c :: rest) with
    | some r => some r
    | none => dropToMatch f rest

/-- Whether all fragments occur, in order, inside the character list. -/
def occursInOrder : List (List Char) → List Char → Bool
  | [], _ => true
  | f :: fs, s =>
    match dropToMatch f s with
    | none => false
    | some rest => occursInOrder fs rest

/-- Modelled from the spec: the ordered rule table of destructive
patterns of the missing `lib/terminalExecutor.js` (recursive root
deletion, fork bombs, raw block-device writes, filesystem formatting,
core system file tampering, remote-script-pipe-to-interpreter). -/
def dangerousRules : List (List String) :=
  [["rm -rf /"],
   [":()", "|:&"],
   ["/dev/sda"],
   ["mkfs"],
   ["dd ", "of=/dev/"],
   ["/etc/passwd"],
   ["curl", "|", "bash"],
   ["wget", "|", "sh"]]

/-- Whether a command matches one destructive rule. -/
def matchesRule (cmd : String) (r : List String) : Bool :=
  occursInOrder (r.map String.data) cmd.data

/-- Whether a command matches any destructive rule. -/
def isDangerous (cmd : String) : Bool := dangerousRules.any (matchesRule cmd)

/-- Modelled from the spec: fragments marking commands that mutate
state, touch the network or escalate privilege, which require approval
unless auto-approved. -/
def riskyFragments : List String :=
  ["sudo", "rm ", "mv ", "chmod", "chown", "curl", "wget", "ssh", "apt", ">"]

/-- Whether a command is state-mutating / network / privileged. -/
def isRisky (cmd : String) : Bool :=
  riskyFragments.any (fun f => (dropToMatch f.data cmd.data).isSome)

/-- The PolicyGate classification of a command. -/
inductive Classification where
  | blocked
  | requiresApproval
  | autoApproved
  deriving DecidableEq, Repr

/-- The approval flags of the caller's configuration. -/
structure GateFlags where
  autoApprove : Bool
  allowDangerous : Bool
  deriving DecidableEq, Repr

/-- The PolicyGate verdict: classification, matched rule, reason. -/
structure PolicyVerdict where
  classification : Classification
  matchedRule : Option (List String)
  reason : String
  deriving DecidableEq, Repr

/-- Modelled from the spec: `classify` of the missing
`lib/terminalExecutor.js`.  A destructive match is `blocked`
irrespective of any flag; otherwise risky commands need approval unless
auto-approved; read-only commands are auto-approved.  Per the
specification the flags only move non-blocked commands across the
requires-approval / auto-approved boundary. -/
def classify (cmd : String) (flags : GateFlags) : PolicyVerdict :=
  if isDangerous cmd then
    ⟨.blocked, dangerousRules.find? (matchesRule cmd), "matches destructive pattern"⟩
  else if isRisky cmd then
    if flags.autoApprove then ⟨.autoApproved, none, "auto-approved by configuration"⟩
    else ⟨.requiresApproval, none, "state-changing command needs approval"⟩
  else ⟨.autoApproved, none, "read-only command"⟩

/-! ### CommandRunner results -/

/-- The status of one command execution (`CommandResult.status`). -/
inductive CmdStatus where
  | success
  | error
  | blocked
  | denied
  | dryRun
  | timeout
  deriving DecidableEq, Repr

/-- A structured command execution result. -/
structure CommandResult where
  status : CmdStatus
  stdout : Text
  stderr : Text
  deriving DecidableEq, Repr

/-- Modelled from the spec: option filling of the missing
`lib/terminalExecutor.js` — the `dryRun` option of a call site that
omits it defaults to `false` (dry-run is opt-in; the orchestrator's
documented default is `false`). -/
def effectiveDryRun (o : Option Bool) : Bool := o.getD false

/-! ### The resilient iteration loop (`lib/iterationLoop.js`)

The Oracle responses mirror the JS response object: `choice` is
`terminalCommand`, `code` or `response`; any other `choice` value leaves
`result.success` undefined (falsy) in `executeStep`, modelled by
`otherChoice`.  A rejected `queryOpenAI` promise is `thrown`. -/

/-- The discriminated Oracle action (`response.choice`). -/
inductive OracleChoice where
  | terminalCommand (cmd : Text) (reasoning : Text)
  | code (c : Text)
  | response (r : Text)
  | otherChoice
  deriving DecidableEq, Repr

/-- An Oracle call either returns a choice or rejects (throws). -/
inductive OracleReply where
  | ok (choice : OracleChoice)
  | thrown (msg : String)
  deriving DecidableEq, Repr

/-- The recorded result of a completed step
(`result.executionResult || result.code || result.message`). -/
inductive StepPayload where
  | exec (r : CommandResult)
  | code (c : Text)
  | msg (m : Text)
  | noPayload
  deriving DecidableEq, Repr

/-- An entry of `context.completedSteps` (iterationLoop.js:266-271). -/
structure CompletedEntry where
  step : Text
  iteration : Nat
  status : String
  result : StepPayload
  deriving DecidableEq, Repr

/-- An entry of `context.failures` (iterationLoop.js:290-295). -/
structure FailureEntry where
  step : Text
  iteration : Nat
  error : String
  deriving DecidableEq, Repr

/-- An entry of `context.recoveryAttempts` (iterationLoop.js:349-353). -/
structure RecoveryEntry where
  step : Text
  iteration : Nat
  solution : Text
  deriving DecidableEq, Repr

/-- One `executeAgentCommand` invocation issued by the loop, with the
options object passed at the call site (`dryRun` is absent at the
recovery call site, iterationLoop.js:364). -/
structure CmdCall where
  command : Text
  autoApprove : Bool
  dryRun : Option Bool
  timeout : Nat
  deriving DecidableEq, Repr

/-- The environment: the Oracle's reply and the command runner's result
for each iteration, for each of the three call kinds. -/
structure LoopEnv where
  stepOracle : Nat → OracleReply
  stepCmd : Nat → CommandResult
  recoveryOracle : Nat → OracleReply
  recoveryCmd : Nat → CommandResult
  reassessOracle : Nat → OracleReply

/-- The options destructured by `executeStepsWithResilience`
(iterationLoop.js:214-221; `temperature`, `globalContext` and
`onProgress` are Oracle-call and callback knobs with no effect on the
state machine and are not modelled). -/
structure LoopOpts where
  maxIterations : Nat
  maxConsecutiveFailures : Nat
  deriving DecidableEq, Repr

/-- The loop state: the mutable plan, cursor, counters and context of
`executeStepsWithResilience`, plus the trace of Oracle queries and
command-runner invocations. -/
structure LoopState where
  currentSteps : List Text
  idx : Nat
  iteration : Nat
  consecutiveFailures : Nat
  completedSteps : List CompletedEntry
  failures : List FailureEntry
  recoveryAttempts : List RecoveryEntry
  reassessments : Nat
  oracleTexts : List Text
  cmdCalls : List CmdCall
  deriving DecidableEq, Repr

/-- The outcome of `executeStep` (iterationLoop.js:23-97). -/
structure Outcome where
  success : Bool
  errMsg : Option String
  payload : StepPayload
  cmdCall : Option CmdCall
  deriving DecidableEq, Repr

/-- `executeStep`'s handling of the Oracle reply: a terminal command is
run through `executeAgentCommand` with literal options
`autoApprove: true, dryRun: false, timeout: 60000`
(iterationLoop.js:59-76); code and message replies count as success; a
rejection returns `success: false` with the error message; an
unrecognized choice leaves `success` undefined (falsy). -/
def execOutcome (r : OracleReply) (cr : CommandResult) : Outcome :=
  match r with
  | .thrown m => ⟨false, some m, .noPayload, none⟩
  | .ok (.terminalCommand c _) =>
    ⟨decide (cr.status = .success), none, .exec cr, some ⟨c, true, some false, 60000⟩⟩
  | .ok (.code c) => ⟨true, none, .code c, none⟩
  | .ok (.response m) => ⟨true, none, .msg m, none⟩
  | .ok .otherChoice => ⟨false, none, .noPayload, none⟩

/-- Concatenated map over a list (string building). -/
def catMap (f : α → Text) : List α → Text
  | [] => []
  | a :: as => f a ++ catMap f as

/-- The last `n` elements of a list (`Array.slice(-n)`). -/
def lastN (n : Nat) (l : List α) : List α := l.drop (l.length - n)

/-- The prompt built by `executeStep` (iterationLoop.js:27-48): prior
completions, recent failures, then the step text verbatim.  Fragment
granularity; the 200-character truncation of result JSON is not
modelled. -/
def buildStepQuery (s : LoopState) (step : Text) : Text :=
  (if s.completedSteps.isEmpty then [] else
    "Previously completed steps:" :: catMap (fun c => c.step ++ [c.status]) s.completedSteps) ++
  (if s.failures.isEmpty then [] else
    "Recent failures to be aware of:" :: catMap (fun f => f.step ++ [f.error]) (lastN 3 s.failures)) ++
  ("Current step to execute:" :: step) ++
  ["Execute this step. If it requires a terminal command, use terminalCommand choice. If it requires code, use code choice."]

/-- The prompt built by `createRecoverySolution` (iterationLoop.js:107-125);
the completed-step count interpolation is rendered as a fragment. -/
def buildRecoveryQuery (step : Text) (err : String) (s : LoopState) : Text :=
  ["A step failed during execution. Analyze the failure and create a recovery solution.",
   "Failed Step:"] ++ step ++
  ["Failure Information:", err,
   "Previous Context:", toString s.completedSteps.length,
   "steps completed successfully before this failure.",
   "Your task: Provide a solution to overcome this failure and continue.",
   "Respond with a clear recovery plan."]

/-- The prompt built by `reassessPlan` (iterationLoop.js:155-175): the
remaining plan tail and the recent failure history. -/
def buildReassessQuery (tail : List Text) (s : LoopState) : Text :=
  ["The current execution plan has encountered multiple failures. Reassess and create an improved plan.",
   "Original Plan:"] ++ catMap id tail ++
  ["Execution History:", "Recent Failures:"] ++
  catMap (fun f => f.step ++ [f.error]) (lastN 5 s.failures) ++
  ["Provide a revised list of steps to continue from the current point."]

/-- Drop leading spaces. -/
def dropSpaces : List Char → List Char
  | [] => []
  | c :: rest => if c = ' ' then dropSpaces rest else c :: rest

/-- Trim spaces on both ends (`String.prototype.trim`, spaces only). -/
def trimChars (l : List Char) : List Char := (dropSpaces (dropSpaces l).reverse).reverse

/-- After the leading digit: more digits then a dot (`/^\d+\./`). -/
def numDotAfter : List Char → Bool
  | [] => false
  | c :: rest => if c = '.' then true else if c.isDigit then numDotAfter rest else false

/-- Whether a trimmed line starts with digits followed by a dot
(iterationLoop.js:189). -/
def startsNumDot (s : String) : Bool :=
  match trimChars s.data with
  | [] => false
  | c :: rest => c.isDigit && numDotAfter rest

/-- Drop the leading `digits.` numbering and following spaces. -/
def dropNumDot : List Char → List Char
  | [] => []
  | c :: rest =>
    if c.isDigit then dropNumDot rest
    else if c = '.' then dropSpaces rest
    else c :: rest

/-- Strip the numbering from a numbered plan line (iterationLoop.js:190). -/
def stripStep (s : String) : String := String.mk (trimChars (dropNumDot (trimChars s.data)))

/-- Parse revised steps out of a reassessment response: the lines that
start with `digits.`, with the numbering stripped
(iterationLoop.js:186-191). -/
def parseSteps (r : Text) : List Text :=
  (r.filter startsNumDot).map (fun l => [stripStep l])

/-- The revised step list extracted from a reassessment reply: parsed
numbered lines of a `response` choice; empty for any other choice. -/
def parsedSteps : OracleChoice → List Text
  | .response r => parseSteps r
  | _ => []

/-- `recovery.recoverySolution`:
`response.response || response.code || 'Retry with modifications'`
(iterationLoop.js:135). -/
def recoverySolutionOf : OracleChoice → Text
  | .response r => r
  | .code c => c
  | _ => ["Retry with modifications"]

/-- The reassessment branch (iterationLoop.js:308-338): query the
Oracle with the unexecuted tail; on a reply, splice the revised steps
(or the unchanged tail if no numbered lines parse) after the executed
prefix, increment `reassessments` and reset `consecutiveFailures`; on a
rejected call leave plan, counters and context unchanged. -/
def handleReassess (env : LoopEnv) (i : Nat) (s : LoopState) : LoopState :=
  let tail := s.currentSteps.drop s.idx
  let s' := { s with oracleTexts := s.oracleTexts ++ [buildReassessQuery tail s] }
  match env.reassessOracle i with
  | .thrown _ => s'
  | .ok ch =>
    let parsed := parsedSteps ch
    let revised := if parsed.isEmpty then tail else parsed
    { s' with currentSteps := s.currentSteps.take s.idx ++ revised,
              reassessments := s.reassessments + 1,
              consecutiveFailures := 0 }

/-- The recovery branch (iterationLoop.js:340-384): ask the Oracle for
a recovery action; on a reply record the attempt, and if the action is
a terminal command run it with `autoApprove: true, timeout: 60000` (no
`dryRun` in the options object) and reset `consecutiveFailures` on
success; the cursor is never advanced. -/
def handleRecovery (env : LoopEnv) (i : Nat) (step : Text) (o : Outcome) (s : LoopState) :
    LoopState :=
  let s' := { s with oracleTexts :=
    s.oracleTexts ++ [buildRecoveryQuery step (o.errMsg.getD "Unknown error") s] }
  match env.recoveryOracle i with
  | .thrown _ => s'
  | .ok ch =>
    let s₂ := { s' with recoveryAttempts :=
      s'.recoveryAttempts ++ [⟨step, i, recoverySolutionOf ch⟩] }
    match ch with
    | .terminalCommand c _ =>
      let s₃ := { s₂ with cmdCalls := s₂.cmdCalls ++ [⟨c, true, none, 60000⟩] }
      if (env.recoveryCmd i).status = .success then { s₃ with consecutiveFailures := 0 }
      else s₃
    | _ => s₂

/-- The step text at the cursor (`currentSteps[currentStepIndex]`). -/
def stepText (s : LoopState) : Text := s.currentSteps.getD s.idx []

/-- The outcome of `executeStep` for the iteration being entered. -/
def stepOutcome (env : LoopEnv) (s : LoopState) : Outcome :=
  execOutcome (env.stepOracle (s.iteration + 1)) (env.stepCmd (s.iteration + 1))

/-- Entering an iteration: increment the counter and record the step
query and any command call issued by `executeStep`. -/
def baseState (env : LoopEnv) (s : LoopState) : LoopState :=
  { s with iteration := s.iteration + 1,
           oracleTexts := s.oracleTexts ++ [buildStepQuery s (stepText s)],
           cmdCalls := s.cmdCalls ++ (stepOutcome env s).cmdCall.toList }

/-- The success branch (iterationLoop.js:257-283): append to
`completedSteps`, reset the failure counter, advance the cursor. -/
def succState (env : LoopEnv) (s : LoopState) : LoopState :=
  { baseState env s with
      completedSteps := s.completedSteps ++
        [⟨stepText s, s.iteration + 1, "success", (stepOutcome env s).payload⟩],
      consecutiveFailures := 0,
      idx := s.idx + 1 }

/-- The failure bookkeeping (iterationLoop.js:285-295): append to
`failures` and increment `consecutiveFailures`. -/
def failState (env : LoopEnv) (s : LoopState) : LoopState :=
  { baseState env s with
      failures := s.failures ++
        [⟨stepText s, s.iteration + 1, (stepOutcome env s).errMsg.getD "Unknown error"⟩],
      consecutiveFailures := s.consecutiveFailures + 1 }

/-- One iteration of the `while` loop of `executeStepsWithResilience`
(iterationLoop.js:244-386): increment the iteration counter, execute
the step at the cursor, then either record success and advance, or
record the failure and reassess (at the consecutive-failure threshold)
or attempt recovery (below it). -/
def loopStep (env : LoopEnv) (opts : LoopOpts) (s : LoopState) : LoopState :=
  if (stepOutcome env s).success then
    succState env s
  else if opts.maxConsecutiveFailures ≤ s.consecutiveFailures + 1 then
    handleReassess env (s.iteration + 1) (failState env s)
  else
    handleRecovery env (s.iteration + 1) (stepText s) (stepOutcome env s) (failState env s)

/-- The initial loop state for an input plan (iterationLoop.js:231-242). -/
def initState (steps : List Text) : LoopState :=
  ⟨steps, 0, 0, 0, [], [], [], 0, [], []⟩

/-- The loop driver with explicit fuel; one unit of fuel per iteration,
exactly mirroring the guard
`currentStepIndex < currentSteps.length && iteration < maxIterations`.
Since every iteration increments the counter by one, `maxIterations`
units of fuel are exactly the iterations the guard can ever admit. -/
def runLoopAux (env : LoopEnv) (opts : LoopOpts) : Nat → LoopState → LoopState
  | 0, s => s
  | fuel + 1, s =>
    if s.idx < s.currentSteps.length ∧ s.iteration < opts.maxIterations then
      runLoopAux env opts fuel (loopStep env opts s)
    else s

/-- Run the loop to completion from a state. -/
def runLoop (env : LoopEnv) (opts : LoopOpts) (s : LoopState) : LoopState :=
  runLoopAux env opts (opts.maxIterations - s.iteration) s

/-- The summary object returned by `executeStepsWithResilience`
(iterationLoop.js:423-436); `successRate` is rational arithmetic in
place of JS floating point. -/
structure Summary where
  success : Bool
  completed : Bool
  reachedMaxIterations : Bool
  totalSteps : Nat
  completedSteps : List CompletedEntry
  failureCount : Nat
  failures : List FailureEntry
  recoveryAttempts : List RecoveryEntry
  reassessments : Nat
  iterations : Nat
  successRate : ℚ
  deriving DecidableEq, Repr

/-- Build the summary from the final loop state
(iterationLoop.js:400-436). -/
def mkSummary (opts : LoopOpts) (s : LoopState) : Summary :=
  { success := decide (s.currentSteps.length ≤ s.idx)
    completed := decide (s.currentSteps.length ≤ s.idx)
    reachedMaxIterations := decide (opts.maxIterations ≤ s.iteration)
    totalSteps := s.currentSteps.length
    completedSteps := s.completedSteps
    failureCount := s.failures.length
    failures := s.failures
    recoveryAttempts := s.recoveryAttempts
    reassessments := s.reassessments
    iterations := s.iteration
    successRate := (s.completedSteps.length : ℚ) / (s.currentSteps.length : ℚ) * 100 }

/-- `executeStepsWithResilience` end to end: run the loop on the plan
and return the summary. -/
def runSummary (steps : List Text) (opts : LoopOpts) (env : LoopEnv) : Summary :=
  mkSummary opts (runLoop env opts (initState steps))

/-- The command contained in an Oracle reply, if any. -/
def cmdOfReply : OracleReply → Option Text
  | .ok (.terminalCommand c _) => some c
  | _ => none

/-- A command text emitted verbatim by the environment's Oracle at some
iteration (step or recovery call). -/
def EmittedCmd (env : LoopEnv) (t : Text) : Prop :=
  ∃ i, cmdOfReply (env.stepOracle i) = some t ∨ cmdOfReply (env.recoveryOracle i) = some t

/-- The invariant of every command-runner invocation the loop issues:
literal options `autoApprove: true`, effective `dryRun = false`, a
60000 ms timeout, and a command passed verbatim from an Oracle reply. -/
def GoodCall (env : LoopEnv) (c : CmdCall) : Prop :=
  c.autoApprove = true ∧ effectiveDryRun c.dryRun = false ∧ c.timeout = 60000 ∧
    EmittedCmd env c.command

/-! ### The orchestrator pipeline (`schemas/agentOrchestrator.js`)

`processUserRequest` phases 0-5, restricted to the Oracle-text and
command-execution trace: the personality call receives the raw user
query; the routing and execution calls receive the (possibly) redacted
query; a terminal command is substituted back before
`executeAgentCommand` unless redaction is skipped.  Memory phases 2 and
6 exchange no claim-relevant text and are not modelled. -/

/-- The configuration destructured by `processUserRequest`
(agentOrchestrator.js:129-138). -/
structure OrchCfg where
  autoApprove : Bool
  dryRun : Bool
  timeout : Nat
  skipMemory : Bool
  skipRedaction : Bool
  skipPersonality : Bool
  allowDangerous : Bool
  deriving DecidableEq, Repr

/-- The Lumen personality reply fields used by the pipeline. -/
structure PersonalityReply where
  userResponse : Text
  internalGuidance : Text
  shouldProceed : Bool
  deriving DecidableEq, Repr

/-- The orchestrator environment: personality reply and final agent
choice. -/
structure OrchEnv where
  personality : PersonalityReply
  agentChoice : OracleChoice

/-- One `executeAgentCommand` invocation of the orchestrator
(agentOrchestrator.js:273-285). -/
structure OrchCall where
  command : Text
  autoApprove : Bool
  dryRun : Bool
  timeout : Nat
  allowDangerous : Bool
  deriving DecidableEq, Repr

/-- The orchestrator trace: texts sent to the Oracle and command
executions issued. -/
structure OrchResult where
  oracleTexts : List Text
  execCalls : List OrchCall
  deriving DecidableEq, Repr

/-- Phases 1-5 on the enhanced query (agentOrchestrator.js:207-296):
redact unless skipped, send the safe query to the router and to the
selected agent, and on a terminal command substitute the placeholders
back and execute with the configured options. -/
def orchCore (enhanced : Text) (cfg : OrchCfg) (env : OrchEnv) (t₀ : List Text) : OrchResult :=
  let safe := if cfg.skipRedaction then enhanced else (redact enhanced).1
  let texts := t₀ ++ [safe, safe]
  match env.agentChoice with
  | .terminalCommand cmd _ =>
    let real := if cfg.skipRedaction then cmd else (substitute cmd (redact enhanced).2).1
    ⟨texts, [⟨real, cfg.autoApprove, cfg.dryRun, cfg.timeout, cfg.allowDangerous⟩]⟩
  | _ => ⟨texts, []⟩

/-- `processUserRequest` (agentOrchestrator.js:128-356): the
personality phase sends the raw user query to the Oracle before any
redaction; if the personality layer handles the request directly the
pipeline returns early; otherwise phases 1-5 run on the internal
guidance (or on the raw query when the personality layer is skipped). -/
def processUserRequest (q : Text) (cfg : OrchCfg) (env : OrchEnv) : OrchResult :=
  if cfg.skipPersonality then
    orchCore q cfg env []
  else if env.personality.shouldProceed then
    orchCore env.personality.internalGuidance cfg env [q]
  else
    ⟨[q], []⟩

/-! ### Concrete fixtures for counterexamples and witnesses -/

/-- A plan whose single step contains a credential in context. -/
def c1Steps : List Text := [["deploy", "password:", "hunter2secret"]]

/-- Environment whose step Oracle emits a command containing a secret
placeholder; the command runner reports success. -/
def c1Env : LoopEnv :=
  { stepOracle := fun _ => .ok (.terminalCommand ["run", tok "PASSWORD" 1] ["use", "creds"])
    stepCmd := fun _ => ⟨.success, [], []⟩
    recoveryOracle := fun _ => .thrown "no recovery"
    recoveryCmd := fun _ => ⟨.error, [], []⟩
    reassessOracle := fun _ => .thrown "no reassessment" }

/-- Options for the redaction counterexample run. -/
def c1Opts : LoopOpts := ⟨5, 3⟩

/-- Orchestrator configuration with redaction on and the personality
layer skipped. -/
def c1Cfg : OrchCfg := ⟨true, false, 30000, true, false, true, false⟩

/-- Orchestrator environment whose agent emits a command containing a
secret placeholder. -/
def c1OrchEnv : OrchEnv :=
  ⟨⟨["hello"], ["guidance"], true⟩, .terminalCommand ["connect", tok "PASSWORD" 1] []⟩

/-- A user query containing a credential in context. -/
def c1Query : Text := ["use", "password:", "hunter2secret"]

/-- Environment in which every Oracle call rejects. -/
def c4Env : LoopEnv :=
  { stepOracle := fun _ => .thrown "boom"
    stepCmd := fun _ => ⟨.error, [], []⟩
    recoveryOracle := fun _ => .thrown "recovery down"
    recoveryCmd := fun _ => ⟨.error, [], []⟩
    reassessOracle := fun _ => .thrown "reassessment down" }

/-- Options with a consecutive-failure threshold of 1. -/
def c4Opts : LoopOpts := ⟨10, 1⟩

/-- Environment whose step Oracle rejects but whose reassessment Oracle
answers with a parseable numbered plan. -/
def c4bEnv : LoopEnv :=
  { stepOracle := fun _ => .thrown "boom"
    stepCmd := fun _ => ⟨.error, [], []⟩
    recoveryOracle := fun _ => .thrown "recovery down"
    recoveryCmd := fun _ => ⟨.error, [], []⟩
    reassessOracle := fun _ => .ok (.response ["1. retry the step", "prose line"]) }

/-- Options for the exhaustion witness: two iterations allowed. -/
def c8Opts : LoopOpts := ⟨2, 5⟩

/-- Environment whose step Oracle rejects but whose recovery Oracle
emits a command that succeeds. -/
def c10Env : LoopEnv :=
  { stepOracle := fun _ => .thrown "boom"
    stepCmd := fun _ => ⟨.error, [], []⟩
    recoveryOracle := fun _ => .ok (.terminalCommand ["mkdir", "workdir"] ["prepare"])
    recoveryCmd := fun _ => ⟨.success, [], []⟩
    reassessOracle := fun _ => .thrown "reassessment down" }

/-- Options with a consecutive-failure threshold of 3. -/
def c10Opts : LoopOpts := ⟨10, 3⟩

/-- A text with one context-detected secret and no placeholder-shaped
fragment. -/
def c2Text : Text := ["use", "password:", "hunter2secret", "and", "token:", "hunter2secret"]

/-! ## Theorems -/

theorem decode_digitsRev : ∀ (fuel n : Nat), n ≤ fuel → decodeDigits (digitsRev fuel n) = n := by
  intro fuel
  induction fuel with
  | zero =>
    intro n hn
    interval_cases n
    rfl
  | succ fuel ih =>
    intro n hn
    match n with
    | 0 => rfl
    | n + 1 =>
      have hdiv : (n + 1) / 10 ≤ fuel := by
        have h1 : (n + 1) / 10 < n + 1 := Nat.div_lt_self (Nat.succ_pos n) (by omega)
        omega
      simp only [digitsRev, decodeDigits, ih _ hdiv]
      omega

theorem natDigits_inj {a b : Nat} (h : natDigits a = natDigits b) : a = b := by
  have ha := decode_digitsRev a a (Nat.le_refl a)
  have hb := decode_digitsRev b b (Nat.le_refl b)
  rw [natDigits, natDigits] at h
  rw [← ha, ← hb, h]

theorem digitsRev_lt : ∀ (fuel n : Nat), ∀ d ∈ digitsRev fuel n, d < 10 := by
  intro fuel
  induction fuel with
  | zero =>
    intro n d hd
    match n with
    | 0 => simp [digitsRev] at hd
    | n + 1 => simp [digitsRev] at hd
  | succ fuel ih =>
    intro n d hd
    match n with
    | 0 => simp [digitsRev] at hd
    | n + 1 =>
      simp only [digitsRev, List.mem_cons] at hd
      rcases hd with h | h
      · omega
      · exact ih _ _ h

theorem digitChar_inj : ∀ a, a < 10 → ∀ b, b < 10 → digitChar a = digitChar b → a = b := by
  decide

theorem digitChar_isDigit : ∀ d, d < 10 → (digitChar d).isDigit = true := by
  decide

theorem map_digitChar_inj :
    ∀ (l₁ l₂ : List Nat), (∀ d ∈ l₁, d < 10) → (∀ d ∈ l₂, d < 10) →
      l₁.map digitChar = l₂.map digitChar → l₁ = l₂ := by
  intro l₁
  induction l₁ with
  | nil =>
    intro l₂ _ _ h
    cases l₂ with
    | nil => rfl
    | cons b bs => simp at h
  | cons a as ih =>
    intro l₂ h₁ h₂ h
    cases l₂ with
    | nil => simp at h
    | cons b bs =>
      simp only [List.map_cons, List.cons.injEq] at h
      have hab : a = b :=
        digitChar_inj a (h₁ a (List.mem_cons_self a as)) b (h₂ b (List.mem_cons_self b bs)) h.1
      have htl : as = bs :=
        ih bs (fun d hd => h₁ d (List.mem_cons_of_mem _ hd))
          (fun d hd => h₂ d (List.mem_cons_of_mem _ hd)) h.2
      rw [hab, htl]

theorem digitsChars_inj {a b : Nat} (h : digitsChars a = digitsChars b) : a = b := by
  unfold digitsChars at h
  by_cases ha : a = 0 <;> by_cases hb : b = 0
  · omega
  · exfalso
    simp only [ha, if_pos rfl, if_neg hb] at h
    have : natDigits b = [0] := by
      have := map_digitChar_inj (natDigits b) [0] (digitsRev_lt b b) (by intro d hd; simp at hd; omega)
        (by rw [← List.reverse_inj]; simpa using h.symm)
      simpa using this
    have hb0 := decode_digitsRev b b (Nat.le_refl b)
    rw [natDigits] at this
    rw [this] at hb0
    simp [decodeDigits] at hb0
    omega
  · exfalso
    simp only [hb, if_pos rfl, if_neg ha] at h
    have : natDigits a = [0] := by
      have := map_digitChar_inj (natDigits a) [0] (digitsRev_lt a a) (by intro d hd; simp at hd; omega)
        (by rw [← List.reverse_inj]; simpa using h)
      simpa using this
    have ha0 := decode_digitsRev a a (Nat.le_refl a)
    rw [natDigits] at this
    rw [this] at ha0
    simp [decodeDigits] at ha0
    omega
  · simp only [if_neg ha, if_neg hb] at h
    have h' : (natDigits a).map digitChar = (natDigits b).map digitChar :=
      List.reverse_inj.mp h
    exact natDigits_inj (map_digitChar_inj _ _ (digitsRev_lt a a) (digitsRev_lt b b) h')

theorem types_no_underscore : ∀ ty ∈ secretTypes, '_' ∉ ty.data := by decide

/-- Unique parsing around the first `_` when neither prefix contains `_`. -/
theorem underscore_parse :
    ∀ (t₁ : List Char), '_' ∉ t₁ → ∀ (t₂ : List Char), '_' ∉ t₂ →
      ∀ (r₁ r₂ : List Char), t₁ ++ '_' :: r₁ = t₂ ++ '_' :: r₂ → t₁ = t₂ ∧ r₁ = r₂ := by
  intro t₁
  induction t₁ with
  | nil =>
    intro _ t₂ h₂ r₁ r₂ h
    cases t₂ with
    | nil => simpa using h
    | cons c t =>
      exfalso
      simp only [List.nil_append, List.cons_append, List.cons.injEq] at h
      exact h₂ (h.1 ▸ List.mem_cons_self c t)
  | cons c t ih =>
    intro h₁ t₂ h₂ r₁ r₂ h
    cases t₂ with
    | nil =>
      exfalso
      simp only [List.nil_append, List.cons_append, List.cons.injEq] at h
      exact h₁ (h.1.symm ▸ List.mem_cons_self c t)
    | cons c' t' =>
      simp only [List.cons_append, List.cons.injEq] at h
      have h₁' : '_' ∉ t := fun hm => h₁ (List.mem_cons_of_mem _ hm)
      have h₂' : '_' ∉ t' := fun hm => h₂ (List.mem_cons_of_mem _ hm)
      obtain ⟨he, hr⟩ := ih h₁' t' h₂' r₁ r₂ h.2
      exact ⟨by rw [h.1, he], hr⟩

/-- Tokens built from underscore-free type names determine their type and index. -/
theorem tok_inj {ty₁ ty₂ : String} (h₁ : '_' ∉ ty₁.data) (h₂ : '_' ∉ ty₂.data)
    {n₁ n₂ : Nat} (h : tok ty₁ n₁ = tok ty₂ n₂) : ty₁ = ty₂ ∧ n₁ = n₂ := by
  have hd : tokChars ty₁.data n₁ = tokChars ty₂.data n₂ := by
    have := congrArg String.data h
    simpa [tok] using this
  unfold tokChars at hd
  injection hd with hh hd
  injection hd with hh hd
  have hd' := List.append_cancel_right hd
  obtain ⟨hty, hrest⟩ := underscore_parse ty₁.data h₁ ty₂.data h₂ _ _ hd'
  exact ⟨String.ext hty, digitsChars_inj hrest⟩

theorem stripPfx_append : ∀ (pre rest : List Char), stripPfx pre (pre ++ rest) = some rest := by
  intro pre
  induction pre with
  | nil => intro rest; rfl
  | cons a as ih => intro rest; simp [stripPfx, ih]

theorem digitsChars_all_digit (n : Nat) : ∀ c ∈ digitsChars n, c.isDigit = true := by
  intro c hc
  unfold digitsChars at hc
  split at hc
  · simp only [List.mem_singleton] at hc
    rw [hc]; decide
  · simp only [List.mem_reverse, List.mem_map] at hc
    obtain ⟨d, hd, hdc⟩ := hc
    rw [← hdc]
    exact digitChar_isDigit d (digitsRev_lt n n d hd)

theorem digitsBraces_append (ds : List Char) (h : ∀ c ∈ ds, c.isDigit = true) :
    digitsBraces (ds ++ [rcurl, rcurl]) = true := by
  induction ds with
  | nil => decide
  | cons c cs ih =>
    have hc : c.isDigit = true := h c (List.mem_cons_self c cs)
    simp only [List.cons_append, digitsBraces, hc, if_true]
    exact ih fun d hd => h d (List.mem_cons_of_mem _ hd)

theorem placeholderOf_tok (ty : String) (n : Nat) :
    placeholderOf ty.data (tok ty n).data = true := by
  have hsplit : tokChars ty.data n =
      (lcurl :: lcurl :: ty.data ++ ['_']) ++ (digitsChars n ++ [rcurl, rcurl]) := by
    simp [tokChars]
  simp only [tok, placeholderOf]
  rw [hsplit, stripPfx_append]
  exact digitsBraces_append _ (digitsChars_all_digit n)

theorem isPlaceholder_tok {ty : String} (hty : ty ∈ secretTypes) (n : Nat) :
    isPlaceholder (tok ty n) = true := by
  simp only [isPlaceholder, List.any_eq_true]
  exact ⟨ty, hty, placeholderOf_tok ty n⟩

theorem detectType_mem {prev w ty : String} (h : detectType prev w = some ty) :
    ty ∈ secretTypes := by
  unfold detectType at h
  split_ifs at h <;> simp_all [secretTypes]

theorem findTokenFor_mem :
    ∀ (m : List (String × String)) {v t : String}, findTokenFor v m = some t → (t, v) ∈ m := by
  intro m
  induction m with
  | nil => intro v t h; simp [findTokenFor] at h
  | cons p rest ih =>
    intro v t h
    simp only [findTokenFor] at h
    split_ifs at h with hp
    · obtain rfl : p.1 = t := by simpa using h
      exact hp ▸ List.mem_cons_self p rest
    · exact List.mem_cons_of_mem _ (ih h)

theorem keyed_append :
    ∀ (m : List (String × String)) (k : Nat) (m' : List (String × String)),
      Keyed k m → Keyed (k + m.length) m' → Keyed k (m ++ m') := by
  intro m
  induction m with
  | nil => intro k m' _ h'; simpa using h'
  | cons p rest ih =>
    intro k m' h h'
    refine ⟨h.1, ih (k + 1) m' h.2 ?_⟩
    have : k + 1 + rest.length = k + (rest.length + 1) := by omega
    rw [this]
    simpa using h'

theorem keyed_mem :
    ∀ (m : List (String × String)) (k : Nat), Keyed k m → ∀ {t v : String}, (t, v) ∈ m →
      ∃ ty ∈ secretTypes, ∃ n, k < n ∧ t = tok ty n := by
  intro m
  induction m with
  | nil => intro k _ t v h; simp at h
  | cons p rest ih =>
    intro k hk t v h
    rcases List.mem_cons.mp h with h | h
    · obtain ⟨ty, hty, hp⟩ := hk.1
      refine ⟨ty, hty, k + 1, Nat.lt_succ_self k, ?_⟩
      rw [← h] at hp
      exact hp
    · obtain ⟨ty, hty, n, hn, ht⟩ := ih (k + 1) hk.2 h
      exact ⟨ty, hty, n, by omega, ht⟩

theorem mlookup_keyed :
    ∀ (m : List (String × String)) (k : Nat), Keyed k m → ∀ {t v : String}, (t, v) ∈ m →
      mlookup t m = some v := by
  intro m
  induction m with
  | nil => intro k _ t v h; simp at h
  | cons p rest ih =>
    intro k hk t v h
    rcases List.mem_cons.mp h with h | h
    · rw [← h]
      simp [mlookup]
    · have hne : p.1 ≠ t := by
        intro he
        obtain ⟨ty₀, hty₀, hp⟩ := hk.1
        obtain ⟨ty, hty, n, hn, ht⟩ := keyed_mem rest (k + 1) hk.2 h
        have : tok ty₀ (k + 1) = tok ty n := by rw [← hp, he, ht]
        have := (tok_inj (types_no_underscore ty₀ hty₀) (types_no_underscore ty hty) this).2
        omega
      simp only [mlookup, if_neg hne]
      exact ih (k + 1) hk.2 h

/-- Main redaction lemma: redaction preserves the mapping invariant,
only appends to the mapping, and substitution through any keyed
extension of the final mapping restores the original text. -/
theorem redactGo_spec :
    ∀ (ws : List String) (prev : String) (m : List (String × String)),
      Keyed 0 m → (∀ w ∈ ws, isPlaceholder w = false) →
      Keyed 0 (redactGo prev ws m).2 ∧
      (∃ ext, (redactGo prev ws m).2 = m ++ ext) ∧
      (∀ M, Keyed 0 M → (∀ p ∈ (redactGo prev ws m).2, p ∈ M) →
        (substituteGo M (redactGo prev ws m).1).1 = ws) := by
  intro ws
  induction ws with
  | nil =>
    intro prev m hm _
    exact ⟨hm, ⟨[], by simp [redactGo]⟩, fun M _ _ => by simp [redactGo, substituteGo]⟩
  | cons w rest ih =>
    intro prev m hm hws
    have hw : isPlaceholder w = false := hws w (List.mem_cons_self w rest)
    have hrest : ∀ x ∈ rest, isPlaceholder x = false :=
      fun x hx => hws x (List.mem_cons_of_mem _ hx)
    cases hdt : detectType prev w with
    | none =>
      obtain ⟨h₁, ⟨ext, h₂⟩, h₃⟩ := ih w m hm hrest
      refine ⟨by simpa [redactGo, hdt] using h₁, ⟨ext, by simpa [redactGo, hdt] using h₂⟩, ?_⟩
      intro M hM hsub
      simp only [redactGo, hdt] at hsub ⊢
      simp only [substituteGo, hw, Bool.false_eq_true, if_false]
      rw [h₃ M hM hsub]
    | some ty =>
      cases hft : findTokenFor w m with
      | some t =>
        obtain ⟨h₁, ⟨ext, h₂⟩, h₃⟩ := ih w m hm hrest
        refine ⟨by simpa [redactGo, hdt, hft] using h₁,
          ⟨ext, by simpa [redactGo, hdt, hft] using h₂⟩, ?_⟩
        intro M hM hsub
        simp only [redactGo, hdt, hft] at hsub ⊢
        have hmem : (t, w) ∈ m := findTokenFor_mem m hft
        have hmemM : (t, w) ∈ M := by
          refine hsub (t, w) ?_
          rw [h₂]
          exact List.mem_append_left _ hmem
        obtain ⟨ty', hty', n, _, htk⟩ := keyed_mem m 0 hm hmem
        have hpl : isPlaceholder t = true := htk ▸ isPlaceholder_tok hty' n
        have hlk : mlookup t M = some w := mlookup_keyed M 0 hM hmemM
        simp only [substituteGo, hpl, if_true, hlk]
        rw [h₃ M hM hsub]
      | none =>
        have hm₂ : Keyed 0 (m ++ [(tok ty (m.length + 1), w)]) := by
          refine keyed_append m 0 _ hm ?_
          exact ⟨⟨ty, detectType_mem hdt, by rw [Nat.zero_add]⟩, trivial⟩
        obtain ⟨h₁, ⟨ext, h₂⟩, h₃⟩ := ih w (m ++ [(tok ty (m.length + 1), w)]) hm₂ hrest
        refine ⟨by simpa [redactGo, hdt, hft] using h₁,
          ⟨(tok ty (m.length + 1), w) :: ext, by simpa [redactGo, hdt, hft] using h₂⟩, ?_⟩
        intro M hM hsub
        simp only [redactGo, hdt, hft] at hsub ⊢
        have hmemM : (tok ty (m.length + 1), w) ∈ M := by
          refine hsub _ ?_
          rw [h₂]
          exact List.mem_append_left _ (List.mem_append_right _ (List.mem_singleton.mpr rfl))
        have hpl : isPlaceholder (tok ty (m.length + 1)) = true :=
          isPlaceholder_tok (detectType_mem hdt) _
        have hlk : mlookup (tok ty (m.length + 1)) M = some w := mlookup_keyed M 0 hM hmemM
        simp only [substituteGo, hpl, if_true, hlk]
        rw [h₃ M hM hsub]

/-- C2: for every text containing zero or more non-overlapping known
secret patterns (no fragment of the text is itself placeholder-shaped),
applying `redact` and then applying `substitute` to the resulting safe
text with the returned mapping yields exactly the original text. -/
theorem redact_substitute_roundtrip (T : Text) (h : ∀ w ∈ T, isPlaceholder w = false) :
    (substitute (redact T).1 (redact T).2).1 = T := by
  obtain ⟨h₁, -, h₃⟩ := redactGo_spec T "" [] trivial h
  exact h₃ _ h₁ (fun p hp => hp)

/-- Witness for C2 at a concrete text with a repeated secret value in
two different credential contexts. -/
theorem redact_substitute_roundtrip_witness :
    (∀ w ∈ c2Text, isPlaceholder w = false) ∧
      (substitute (redact c2Text).1 (redact c2Text).2).1 = c2Text :=
  ⟨by decide, redact_substitute_roundtrip c2Text (by decide)⟩

/-- C3: every command matching a destructive pattern is classified
`blocked` for all flag values; the flags never unblock a blocked
command and only move non-blocked commands between `requiresApproval`
and `autoApproved`. -/
theorem classify_blocked_dominates (cmd : String) (f g : GateFlags) :
    (isDangerous cmd = true → (classify cmd f).classification = .blocked) ∧
    ((classify cmd f).classification = .blocked →
      (classify cmd g).classification = .blocked) ∧
    ((classify cmd f).classification ≠ .blocked →
      (classify cmd g).classification = .requiresApproval ∨
        (classify cmd g).classification = .autoApproved) := by
  unfold classify
  split_ifs <;> simp_all

/-- Witness for C3: `rm -rf /` is destructive and is blocked even with
both flags set. -/
theorem classify_blocked_dominates_witness :
    isDangerous "rm -rf /" = true ∧
      (classify "rm -rf /" ⟨true, true⟩).classification = .blocked :=
  ⟨by decide, (classify_blocked_dominates "rm -rf /" ⟨true, true⟩ ⟨false, false⟩).1 (by decide)⟩

/-! ### Frame lemmas for the loop branches -/

@[simp] theorem handleReassess_iteration (env : LoopEnv) (i : Nat) (s : LoopState) :
    (handleReassess env i s).iteration = s.iteration := by
  unfold handleReassess
  cases env.reassessOracle i <;> rfl

@[simp] theorem handleReassess_idx (env : LoopEnv) (i : Nat) (s : LoopState) :
    (handleReassess env i s).idx = s.idx := by
  unfold handleReassess
  cases env.reassessOracle i <;> rfl

@[simp] theorem handleReassess_completedSteps (env : LoopEnv) (i : Nat) (s : LoopState) :
    (handleReassess env i s).completedSteps = s.completedSteps := by
  unfold handleReassess
  cases env.reassessOracle i <;> rfl

@[simp] theorem handleReassess_failures (env : LoopEnv) (i : Nat) (s : LoopState) :
    (handleReassess env i s).failures = s.failures := by
  unfold handleReassess
  cases env.reassessOracle i <;> rfl

@[simp] theorem handleReassess_cmdCalls (env : LoopEnv) (i : Nat) (s : LoopState) :
    (handleReassess env i s).cmdCalls = s.cmdCalls := by
  unfold handleReassess
  cases env.reassessOracle i <;> rfl

@[simp] theorem handleRecovery_iteration (env : LoopEnv) (i : Nat) (step : Text) (o : Outcome)
    (s : LoopState) : (handleRecovery env i step o s).iteration = s.iteration := by
  unfold handleRecovery
  cases env.recoveryOracle i with
  | thrown m => rfl
  | ok ch =>
    cases ch with
    | terminalCommand c r =>
      dsimp only
      split <;> rfl
    | code c => rfl
    | response r => rfl
    | otherChoice => rfl

@[simp] theorem handleRecovery_idx (env : LoopEnv) (i : Nat) (step : Text) (o : Outcome)
    (s : LoopState) : (handleRecovery env i step o s).idx = s.idx := by
  unfold handleRecovery
  cases env.recoveryOracle i with
  | thrown m => rfl
  | ok ch =>
    cases ch with
    | terminalCommand c r =>
      dsimp only
      split <;> rfl
    | code c => rfl
    | response r => rfl
    | otherChoice => rfl

@[simp] theorem handleRecovery_completedSteps (env : LoopEnv) (i : Nat) (step : Text)
    (o : Outcome) (s : LoopState) :
    (handleRecovery env i step o s).completedSteps = s.completedSteps := by
  unfold handleRecovery
  cases env.recoveryOracle i with
  | thrown m => rfl
  | ok ch =>
    cases ch with
    | terminalCommand c r =>
      dsimp only
      split <;> rfl
    | code c => rfl
    | response r => rfl
    | otherChoice => rfl

@[simp] theorem handleRecovery_currentSteps (env : LoopEnv) (i : Nat) (step : Text)
    (o : Outcome) (s : LoopState) :
    (handleRecovery env i step o s).currentSteps = s.currentSteps := by
  unfold handleRecovery
  cases env.recoveryOracle i with
  | thrown m => rfl
  | ok ch =>
    cases ch with
    | terminalCommand c r =>
      dsimp only
      split <;> rfl
    | code c => rfl
    | response r => rfl
    | otherChoice => rfl

@[simp] theorem handleRecovery_failures (env : LoopEnv) (i : Nat) (step : Text) (o : Outcome)
    (s : LoopState) : (handleRecovery env i step o s).failures = s.failures := by
  unfold handleRecovery
  cases env.recoveryOracle i with
  | thrown m => rfl
  | ok ch =>
    cases ch with
    | terminalCommand c r =>
      dsimp only
      split <;> rfl
    | code c => rfl
    | response r => rfl
    | otherChoice => rfl

@[simp] theorem handleRecovery_reassessments (env : LoopEnv) (i : Nat) (step : Text)
    (o : Outcome) (s : LoopState) :
    (handleRecovery env i step o s).reassessments = s.reassessments := by
  unfold handleRecovery
  cases env.recoveryOracle i with
  | thrown m => rfl
  | ok ch =>
    cases ch with
    | terminalCommand c r =>
      dsimp only
      split <;> rfl
    | code c => rfl
    | response r => rfl
    | otherChoice => rfl

@[simp] theorem succState_currentSteps (env : LoopEnv) (s : LoopState) :
    (succState env s).currentSteps = s.currentSteps := rfl

@[simp] theorem succState_idx (env : LoopEnv) (s : LoopState) :
    (succState env s).idx = s.idx + 1 := rfl

@[simp] theorem succState_iteration (env : LoopEnv) (s : LoopState) :
    (succState env s).iteration = s.iteration + 1 := rfl

@[simp] theorem succState_completedSteps (env : LoopEnv) (s : LoopState) :
    (succState env s).completedSteps = s.completedSteps ++
      [⟨stepText s, s.iteration + 1, "success", (stepOutcome env s).payload⟩] := rfl

@[simp] theorem succState_failures (env : LoopEnv) (s : LoopState) :
    (succState env s).failures = s.failures := rfl

@[simp] theorem succState_reassessments (env : LoopEnv) (s : LoopState) :
    (succState env s).reassessments = s.reassessments := rfl

@[simp] theorem succState_consecutiveFailures (env : LoopEnv) (s : LoopState) :
    (succState env s).consecutiveFailures = 0 := rfl

@[simp] theorem succState_cmdCalls (env : LoopEnv) (s : LoopState) :
    (succState env s).cmdCalls = s.cmdCalls ++ (stepOutcome env s).cmdCall.toList := rfl

@[simp] theorem failState_currentSteps (env : LoopEnv) (s : LoopState) :
    (failState env s).currentSteps = s.currentSteps := rfl

@[simp] theorem failState_idx (env : LoopEnv) (s : LoopState) :
    (failState env s).idx = s.idx := rfl

@[simp] theorem failState_iteration (env : LoopEnv) (s : LoopState) :
    (failState env s).iteration = s.iteration + 1 := rfl

@[simp] theorem failState_completedSteps (env : LoopEnv) (s : LoopState) :
    (failState env s).completedSteps = s.completedSteps := rfl

@[simp] theorem failState_failures (env : LoopEnv) (s : LoopState) :
    (failState env s).failures = s.failures ++
      [⟨stepText s, s.iteration + 1, (stepOutcome env s).errMsg.getD "Unknown error"⟩] := rfl

@[simp] theorem failState_reassessments (env : LoopEnv) (s : LoopState) :
    (failState env s).reassessments = s.reassessments := rfl

@[simp] theorem failState_consecutiveFailures (env : LoopEnv) (s : LoopState) :
    (failState env s).consecutiveFailures = s.consecutiveFailures + 1 := rfl

@[simp] theorem failState_cmdCalls (env : LoopEnv) (s : LoopState) :
    (failState env s).cmdCalls = s.cmdCalls ++ (stepOutcome env s).cmdCall.toList := rfl

@[simp] theorem failState_recoveryAttempts (env : LoopEnv) (s : LoopState) :
    (failState env s).recoveryAttempts = s.recoveryAttempts := rfl

theorem loopStep_iteration (env : LoopEnv) (opts : LoopOpts) (s : LoopState) :
    (loopStep env opts s).iteration = s.iteration + 1 := by
  unfold loopStep
  split
  · rfl
  · split
    · rw [handleReassess_iteration, failState_iteration]
    · rw [handleRecovery_iteration, failState_iteration]

/-! ### The loop driver: exit condition and iteration bound -/

theorem runLoopAux_iteration_le (env : LoopEnv) (opts : LoopOpts) :
    ∀ (fuel : Nat) (s : LoopState), s.iteration ≤ opts.maxIterations →
      (runLoopAux env opts fuel s).iteration ≤ opts.maxIterations := by
  intro fuel
  induction fuel with
  | zero => intro s hs; exact hs
  | succ fuel ih =>
    intro s hs
    unfold runLoopAux
    split
    · rename_i h
      refine ih _ ?_
      rw [loopStep_iteration]
      omega
    · exact hs

theorem runLoopAux_exit (env : LoopEnv) (opts : LoopOpts) :
    ∀ (fuel : Nat) (s : LoopState), opts.maxIterations ≤ s.iteration + fuel →
      ¬((runLoopAux env opts fuel s).idx < (runLoopAux env opts fuel s).currentSteps.length ∧
        (runLoopAux env opts fuel s).iteration < opts.maxIterations) := by
  intro fuel
  induction fuel with
  | zero =>
    intro s hs
    unfold runLoopAux
    omega
  | succ fuel ih =>
    intro s hs
    unfold runLoopAux
    split
    · refine ih _ ?_
      rw [loopStep_iteration]
      omega
    · rename_i h
      exact h

/-- C6: for every input plan and every behaviour of the Oracle and of
the command runner, the loop driver `runLoop` reaches a state violating
the `while` guard — the cursor is at the end of the (possibly revised)
plan or the iteration counter has reached `maxIterations` — and
performs at most `maxIterations` iterations. -/
theorem loop_terminates (steps : List Text) (opts : LoopOpts) (env : LoopEnv) :
    ((runLoop env opts (initState steps)).currentSteps.length ≤
        (runLoop env opts (initState steps)).idx ∨
      opts.maxIterations ≤ (runLoop env opts (initState steps)).iteration) ∧
    (runLoop env opts (initState steps)).iteration ≤ opts.maxIterations := by
  have h0 : (initState steps).iteration = 0 := rfl
  constructor
  · have hx := runLoopAux_exit env opts (opts.maxIterations - (initState steps).iteration)
      (initState steps) (by omega)
    unfold runLoop
    omega
  · exact runLoopAux_iteration_le env opts _ _ (by omega)

/-! ### Branch case analysis for reassessment -/

theorem handleReassess_steps_cases (env : LoopEnv) (i : Nat) (s : LoopState) :
    ((handleReassess env i s).currentSteps = s.currentSteps ∧
     (handleReassess env i s).reassessments = s.reassessments ∧
     (handleReassess env i s).consecutiveFailures = s.consecutiveFailures) ∨
    (∃ ch, env.reassessOracle i = .ok ch ∧
      (handleReassess env i s).currentSteps = s.currentSteps.take s.idx ++
        (if (parsedSteps ch).isEmpty then s.currentSteps.drop s.idx else parsedSteps ch) ∧
      (handleReassess env i s).reassessments = s.reassessments + 1 ∧
      (handleReassess env i s).consecutiveFailures = 0) := by
  unfold handleReassess
  cases h : env.reassessOracle i with
  | thrown m => exact Or.inl ⟨rfl, rfl, rfl⟩
  | ok ch => exact Or.inr ⟨ch, rfl, rfl, rfl, rfl⟩

/-- C5: in every loop iteration the completed-step history is only
appended to (every new entry carrying status `success`, and existing
entries, with their statuses, kept verbatim — no completed step returns
to pending), and whenever the plan list changes at all it is a
reassessment: the reassessment counter increments, the executed prefix
below the cursor is unchanged, and the completed-step history is
untouched; the failure history is likewise append-only. -/
theorem completed_steps_immutable (env : LoopEnv) (opts : LoopOpts) (s : LoopState)
    (h : s.idx ≤ s.currentSteps.length) :
    ((loopStep env opts s).completedSteps = s.completedSteps ∨
      ∃ e, (loopStep env opts s).completedSteps = s.completedSteps ++ [e] ∧
        e.status = "success") ∧
    ((loopStep env opts s).currentSteps = s.currentSteps ∨
      ((loopStep env opts s).reassessments = s.reassessments + 1 ∧
       (loopStep env opts s).currentSteps.take s.idx = s.currentSteps.take s.idx ∧
       (loopStep env opts s).completedSteps = s.completedSteps)) ∧
    (∃ ext, (loopStep env opts s).failures = s.failures ++ ext) := by
  unfold loopStep
  split
  · refine ⟨Or.inr ⟨_, rfl, rfl⟩, Or.inl rfl, [], (List.append_nil _).symm⟩
  · split
    · refine ⟨Or.inl (handleReassess_completedSteps _ _ _), ?_,
        ⟨_, handleReassess_failures _ _ _⟩⟩
      rcases handleReassess_steps_cases env (s.iteration + 1) (failState env s) with
        hcase | hcase
      · exact Or.inl hcase.1
      · obtain ⟨ch, hch, hsteps, hre, -⟩ := hcase
        refine Or.inr ⟨hre, ?_, handleReassess_completedSteps _ _ _⟩
        rw [hsteps]
        simp only [failState_currentSteps, failState_idx]
        rw [List.take_append_of_le_length (by simp [List.length_take]; omega),
          List.take_take]
        simp
    · refine ⟨Or.inl (handleRecovery_completedSteps _ _ _ _ _),
        Or.inl (handleRecovery_currentSteps _ _ _ _ _),
        ⟨_, handleRecovery_failures _ _ _ _ _⟩⟩

/-- Witness for C5 at a concrete reassessing iteration. -/
theorem completed_steps_immutable_witness :
    (initState [["alpha"]]).idx ≤ (initState [["alpha"]]).currentSteps.length ∧
      ((loopStep c4bEnv c4Opts (initState [["alpha"]])).currentSteps =
          (initState [["alpha"]]).currentSteps ∨
        ((loopStep c4bEnv c4Opts (initState [["alpha"]])).reassessments =
            (initState [["alpha"]]).reassessments + 1 ∧
         (loopStep c4bEnv c4Opts (initState [["alpha"]])).currentSteps.take
             (initState [["alpha"]]).idx =
           (initState [["alpha"]]).currentSteps.take (initState [["alpha"]]).idx ∧
         (loopStep c4bEnv c4Opts (initState [["alpha"]])).completedSteps =
           (initState [["alpha"]]).completedSteps)) :=
  ⟨by decide,
    (completed_steps_immutable c4bEnv c4Opts (initState [["alpha"]]) (by decide)).2.1⟩

/-! ### Command-call invariants -/

theorem stepOutcome_cmdCall_good (env : LoopEnv) (s : LoopState) :
    ∀ c ∈ (stepOutcome env s).cmdCall.toList, GoodCall env c := by
  intro c hc
  unfold stepOutcome at hc
  cases h : env.stepOracle (s.iteration + 1) with
  | thrown m => rw [h] at hc; simp [execOutcome] at hc
  | ok ch =>
    rw [h] at hc
    cases ch with
    | terminalCommand cmd r =>
      have hc' : c = ⟨cmd, true, some false, 60000⟩ := by
        simpa [execOutcome] using hc
      subst hc'
      exact ⟨rfl, rfl, rfl, ⟨s.iteration + 1, Or.inl (by rw [h]; rfl)⟩⟩
    | code c' => simp [execOutcome] at hc
    | response r => simp [execOutcome] at hc
    | otherChoice => simp [execOutcome] at hc

theorem handleRecovery_cmdCalls (env : LoopEnv) (i : Nat) (step : Text) (o : Outcome)
    (s : LoopState) :
    (handleRecovery env i step o s).cmdCalls = s.cmdCalls ∨
    ∃ cmd r, env.recoveryOracle i = .ok (.terminalCommand cmd r) ∧
      (handleRecovery env i step o s).cmdCalls = s.cmdCalls ++ [⟨cmd, true, none, 60000⟩] := by
  unfold handleRecovery
  cases h : env.recoveryOracle i with
  | thrown m => exact Or.inl rfl
  | ok ch =>
    cases ch with
    | terminalCommand cmd r =>
      refine Or.inr ⟨cmd, r, rfl, ?_⟩
      dsimp only
      split <;> rfl
    | code c => exact Or.inl rfl
    | response r => exact Or.inl rfl
    | otherChoice => exact Or.inl rfl

theorem loopStep_cmdCalls (env : LoopEnv) (opts : LoopOpts) (s : LoopState) :
    ∃ new, (loopStep env opts s).cmdCalls = s.cmdCalls ++ new ∧
      ∀ c ∈ new, GoodCall env c := by
  unfold loopStep
  split
  · exact ⟨_, succState_cmdCalls env s, stepOutcome_cmdCall_good env s⟩
  · split
    · refine ⟨_, ?_, stepOutcome_cmdCall_good env s⟩
      rw [handleReassess_cmdCalls, failState_cmdCalls]
    · rcases handleRecovery_cmdCalls env (s.iteration + 1) (stepText s) (stepOutcome env s)
        (failState env s) with hc | ⟨cmd, r, hcr, hc⟩
      · exact ⟨_, by rw [hc, failState_cmdCalls], stepOutcome_cmdCall_good env s⟩
      · refine ⟨(stepOutcome env s).cmdCall.toList ++ [⟨cmd, true, none, 60000⟩], ?_, ?_⟩
        · rw [hc, failState_cmdCalls, List.append_assoc]
        · intro c hcm
          rcases List.mem_append.mp hcm with hcm | hcm
          · exact stepOutcome_cmdCall_good env s c hcm
          · have hc' : c = ⟨cmd, true, none, 60000⟩ := by simpa using hcm
            subst hc'
            exact ⟨rfl, rfl, rfl, ⟨s.iteration + 1, Or.inr (by rw [hcr]; rfl)⟩⟩

theorem runLoopAux_cmdCalls (env : LoopEnv) (opts : LoopOpts) :
    ∀ (fuel : Nat) (s : LoopState), (∀ c ∈ s.cmdCalls, GoodCall env c) →
      ∀ c ∈ (runLoopAux env opts fuel s).cmdCalls, GoodCall env c := by
  intro fuel
  induction fuel with
  | zero => intro s hs; exact hs
  | succ fuel ih =>
    intro s hs
    unfold runLoopAux
    split
    · refine ih _ ?_
      obtain ⟨new, hnew, hgood⟩ := loopStep_cmdCalls env opts s
      rw [hnew]
      intro c hc
      rcases List.mem_append.mp hc with hc | hc
      · exact hs c hc
      · exact hgood c hc
    · exact hs

/-- C9: every command-runner invocation the loop issues — for a step or
for a recovery attempt, with any loop options — carries
`autoApprove = true`, an effective `dryRun = false` and the fixed
60000 ms timeout; the loop's options carry no flag that could change
any of the three. -/
theorem command_options_fixed (steps : List Text) (opts : LoopOpts) (env : LoopEnv) :
    ∀ c ∈ (runLoop env opts (initState steps)).cmdCalls,
      c.autoApprove = true ∧ effectiveDryRun c.dryRun = false ∧ c.timeout = 60000 := by
  intro c hc
  have hg := runLoopAux_cmdCalls env opts _ (initState steps)
    (by intro c hc; simp [initState] at hc) c hc
  exact ⟨hg.1, hg.2.1, hg.2.2.1⟩

/-- Witness for C9 at a concrete run issuing one step command. -/
theorem command_options_fixed_witness :
    (⟨["run", tok "PASSWORD" 1], true, some false, 60000⟩ : CmdCall) ∈
        (runLoop c1Env c1Opts (initState c1Steps)).cmdCalls ∧
      effectiveDryRun (some false) = false :=
  ⟨by decide,
    (command_options_fixed c1Steps c1Opts c1Env ⟨["run", tok "PASSWORD" 1], true, some false,
      60000⟩ (by decide)).2.1⟩

/-- C1 counterexample: in a concrete run of the resilient loop whose
single step contains a credential, the first text sent to the Oracle is
not redaction-stable (redacting it changes it, so the Oracle saw the raw
secret), and the command passed to the command runner still contains a
secret placeholder fragment (no substitution was applied before
execution) — refuting both halves of the claim on
`executeStepsWithResilience`. -/
theorem loop_redaction_counterexample :
    (redact ((runLoop c1Env c1Opts (initState c1Steps)).oracleTexts.getD 0 [])).1 ≠
        (runLoop c1Env c1Opts (initState c1Steps)).oracleTexts.getD 0 [] ∧
      ((runLoop c1Env c1Opts (initState c1Steps)).cmdCalls.getD 0
          ⟨[], false, none, 0⟩).command.any isPlaceholder = true := by
  decide

/-- C1 amended: the resilient loop itself performs no redaction and no
substitution — every command it passes to the command runner is exactly
a command emitted by an Oracle reply, unmodified; the
redact-before-Oracle and substitute-before-execution contract is
implemented only by the orchestrator `processUserRequest`, whose routing
and execution Oracle calls receive the redacted query and whose
executed command is the agent command with the mapping substituted back
(when redaction is on and the personality phase — which receives the
raw query — is skipped). -/
theorem loop_redaction_amended :
    (∀ (steps : List Text) (opts : LoopOpts) (env : LoopEnv),
      ∀ c ∈ (runLoop env opts (initState steps)).cmdCalls, EmittedCmd env c.command) ∧
    (∀ (q : Text) (cfg : OrchCfg) (env : OrchEnv),
      cfg.skipRedaction = false → cfg.skipPersonality = true →
      (processUserRequest q cfg env).oracleTexts = [(redact q).1, (redact q).1] ∧
      ∀ cmd r, env.agentChoice = .terminalCommand cmd r →
        (processUserRequest q cfg env).execCalls.map OrchCall.command =
          [(substitute cmd (redact q).2).1]) := by
  constructor
  · intro steps opts env c hc
    exact (runLoopAux_cmdCalls env opts _ (initState steps)
      (by intro c hc; simp [initState] at hc) c hc).2.2.2
  · intro q cfg env hred hpers
    unfold processUserRequest
    simp only [hpers, if_true]
    constructor
    · unfold orchCore
      cases env.agentChoice <;> simp [hred]
    · intro cmd r hch
      unfold orchCore
      rw [hch]
      simp [hred]

/-- Witness for C1 amended: the loop's only command call in the
concrete run was emitted verbatim by the Oracle, and the orchestrator
pipeline redacts the query before the Oracle and substitutes the
command before execution. -/
theorem loop_redaction_amended_witness :
    EmittedCmd c1Env ["run", tok "PASSWORD" 1] ∧
      (processUserRequest c1Query c1Cfg c1OrchEnv).oracleTexts =
        [(redact c1Query).1, (redact c1Query).1] ∧
      (processUserRequest c1Query c1Cfg c1OrchEnv).execCalls.map OrchCall.command =
        [(substitute ["connect", tok "PASSWORD" 1] (redact c1Query).2).1] :=
  ⟨loop_redaction_amended.1 c1Steps c1Opts c1Env
      ⟨["run", tok "PASSWORD" 1], true, some false, 60000⟩ (by decide),
    (loop_redaction_amended.2 c1Query c1Cfg c1OrchEnv (by decide) (by decide)).1,
    (loop_redaction_amended.2 c1Query c1Cfg c1OrchEnv (by decide) (by decide)).2
      ["connect", tok "PASSWORD" 1] [] rfl⟩

/-! ### The reassessment threshold and the recovery reset -/

/-- C4 counterexample: with a consecutive-failure threshold of 1, one
failing iteration whose reassessment Oracle call rejects leaves
`consecutiveFailures` at the threshold (not 0) and `reassessments` at 0
(not incremented), refuting the claim that reaching the threshold
always increments `reassessments` and resets `consecutiveFailures`. -/
theorem reassess_reset_counterexample :
    (loopStep c4Env c4Opts (initState [["alpha"]])).consecutiveFailures =
        c4Opts.maxConsecutiveFailures ∧
      ¬((loopStep c4Env c4Opts (initState [["alpha"]])).reassessments = 1 ∧
        (loopStep c4Env c4Opts (initState [["alpha"]])).consecutiveFailures = 0) := by
  decide

/-- C4 amended: when `consecutiveFailures` reaches
`maxConsecutiveFailures` the loop invokes reassessment; if the
reassessment Oracle call returns (even unparseable), the unexecuted
tail is replaced by the parsed revised list — kept unchanged when no
numbered line parses — `reassessments` increases by 1 and
`consecutiveFailures` resets to 0; if the Oracle call itself throws,
the plan, `reassessments` and `consecutiveFailures` (left at the
threshold) are all unchanged. -/
theorem reassess_reset_amended (env : LoopEnv) (opts : LoopOpts) (s : LoopState)
    (hfail : (stepOutcome env s).success = false)
    (hthr : opts.maxConsecutiveFailures ≤ s.consecutiveFailures + 1) :
    (∀ m, env.reassessOracle (s.iteration + 1) = .thrown m →
      (loopStep env opts s).currentSteps = s.currentSteps ∧
      (loopStep env opts s).reassessments = s.reassessments ∧
      (loopStep env opts s).consecutiveFailures = s.consecutiveFailures + 1) ∧
    (∀ ch, env.reassessOracle (s.iteration + 1) = .ok ch →
      (loopStep env opts s).reassessments = s.reassessments + 1 ∧
      (loopStep env opts s).consecutiveFailures = 0 ∧
      (loopStep env opts s).currentSteps = s.currentSteps.take s.idx ++
        (if (parsedSteps ch).isEmpty then s.currentSteps.drop s.idx
          else parsedSteps ch)) := by
  have hstep : loopStep env opts s =
      handleReassess env (s.iteration + 1) (failState env s) := by
    unfold loopStep
    simp [hfail, hthr]
  constructor
  · intro m hm
    rw [hstep]
    unfold handleReassess
    rw [hm]
    exact ⟨rfl, rfl, rfl⟩
  · intro ch hch
    rw [hstep]
    unfold handleReassess
    rw [hch]
    exact ⟨rfl, rfl, rfl⟩

/-- Witness for C4 amended at a failing iteration whose reassessment
reply parses one numbered line. -/
theorem reassess_reset_amended_witness :
    ((stepOutcome c4bEnv (initState [["alpha"]])).success = false ∧
      c4Opts.maxConsecutiveFailures ≤ (initState [["alpha"]]).consecutiveFailures + 1) ∧
      ((loopStep c4bEnv c4Opts (initState [["alpha"]])).reassessments =
          (initState [["alpha"]]).reassessments + 1 ∧
        (loopStep c4bEnv c4Opts (initState [["alpha"]])).consecutiveFailures = 0 ∧
        (loopStep c4bEnv c4Opts (initState [["alpha"]])).currentSteps =
          (initState [["alpha"]]).currentSteps.take (initState [["alpha"]]).idx ++
            (if (parsedSteps (.response ["1. retry the step", "prose line"])).isEmpty
              then (initState [["alpha"]]).currentSteps.drop (initState [["alpha"]]).idx
              else parsedSteps (.response ["1. retry the step", "prose line"]))) :=
  ⟨⟨by decide, by decide⟩,
    (reassess_reset_amended c4bEnv c4Opts (initState [["alpha"]]) (by decide) (by decide)).2
      (.response ["1. retry the step", "prose line"]) rfl⟩

/-- C10: after a step failure below the reassessment threshold, if the
Oracle's recovery action is a command that executes successfully,
`consecutiveFailures` resets to 0 although the failed step has not
succeeded — the cursor, the completed-step history and the
reassessment counter are unchanged and the failure was recorded — so
reassessment is postponed by up to `maxConsecutiveFailures` further
consecutive failures of that same step. -/
theorem recovery_resets_consecutive_failures (env : LoopEnv) (opts : LoopOpts) (s : LoopState)
    (hfail : (stepOutcome env s).success = false)
    (hbelow : s.consecutiveFailures + 1 < opts.maxConsecutiveFailures)
    (cmd r : Text)
    (hrec : env.recoveryOracle (s.iteration + 1) = .ok (.terminalCommand cmd r))
    (hok : (env.recoveryCmd (s.iteration + 1)).status = .success) :
    (loopStep env opts s).consecutiveFailures = 0 ∧
    (loopStep env opts s).idx = s.idx ∧
    (loopStep env opts s).completedSteps = s.completedSteps ∧
    (loopStep env opts s).reassessments = s.reassessments ∧
    (loopStep env opts s).failures.length = s.failures.length + 1 := by
  have hnot : ¬(opts.maxConsecutiveFailures ≤ s.consecutiveFailures + 1) := by omega
  have hstep : loopStep env opts s =
      handleRecovery env (s.iteration + 1) (stepText s) (stepOutcome env s)
        (failState env s) := by
    unfold loopStep
    simp [hfail, hnot]
  rw [hstep]
  unfold handleRecovery
  rw [hrec]
  dsimp only
  rw [if_pos hok]
  exact ⟨rfl, rfl, rfl, rfl, by simp⟩

/-- Witness for C10 at a failing iteration whose recovery command
succeeds. -/
theorem recovery_resets_consecutive_failures_witness :
    ((stepOutcome c10Env (initState [["alpha"]])).success = false ∧
      (initState [["alpha"]]).consecutiveFailures + 1 < c10Opts.maxConsecutiveFailures ∧
      (c10Env.recoveryCmd 1).status = .success) ∧
      ((loopStep c10Env c10Opts (initState [["alpha"]])).consecutiveFailures = 0 ∧
        (loopStep c10Env c10Opts (initState [["alpha"]])).idx = (initState [["alpha"]]).idx ∧
        (loopStep c10Env c10Opts (initState [["alpha"]])).completedSteps =
          (initState [["alpha"]]).completedSteps ∧
        (loopStep c10Env c10Opts (initState [["alpha"]])).reassessments =
          (initState [["alpha"]]).reassessments ∧
        (loopStep c10Env c10Opts (initState [["alpha"]])).failures.length =
          (initState [["alpha"]]).failures.length + 1) :=
  ⟨⟨by decide, by decide, by decide⟩,
    recovery_resets_consecutive_failures c10Env c10Opts (initState [["alpha"]]) (by decide)
      (by decide) ["mkdir", "workdir"] ["prepare"] rfl (by decide)⟩

/-! ### Summary invariants -/

theorem loopStep_inv (env : LoopEnv) (opts : LoopOpts) (s : LoopState)
    (hg : s.idx < s.currentSteps.length)
    (h1 : s.completedSteps.length = s.idx)
    (h2 : s.reassessments ≤ s.failures.length) :
    (loopStep env opts s).completedSteps.length = (loopStep env opts s).idx ∧
    (loopStep env opts s).idx ≤ (loopStep env opts s).currentSteps.length ∧
    (loopStep env opts s).reassessments ≤ (loopStep env opts s).failures.length := by
  unfold loopStep
  split
  · exact ⟨by simp [h1], by simp; omega, by simpa using h2⟩
  · split
    · refine ⟨by simp [h1], ?_, ?_⟩
      · rcases handleReassess_steps_cases env (s.iteration + 1) (failState env s) with hc | hc
        · rw [handleReassess_idx, hc.1]
          simp
          omega
        · obtain ⟨ch, -, hsteps, -, -⟩ := hc
          rw [handleReassess_idx, hsteps]
          simp [List.length_take]
          omega
      · rcases handleReassess_steps_cases env (s.iteration + 1) (failState env s) with hc | hc
        · rw [handleReassess_failures, hc.2.1]
          simp
          omega
        · obtain ⟨ch, -, -, hre, -⟩ := hc
          rw [handleReassess_failures, hre]
          simp
          omega
    · exact ⟨by simp [h1], by simp; omega, by simp; omega⟩

theorem runLoopAux_inv (env : LoopEnv) (opts : LoopOpts) :
    ∀ (fuel : Nat) (s : LoopState),
      s.completedSteps.length = s.idx → s.idx ≤ s.currentSteps.length →
      s.reassessments ≤ s.failures.length →
      (runLoopAux env opts fuel s).completedSteps.length = (runLoopAux env opts fuel s).idx ∧
      (runLoopAux env opts fuel s).idx ≤ (runLoopAux env opts fuel s).currentSteps.length ∧
      (runLoopAux env opts fuel s).reassessments ≤
        (runLoopAux env opts fuel s).failures.length := by
  intro fuel
  induction fuel with
  | zero => intro s h1 h2 h3; exact ⟨h1, h2, h3⟩
  | succ fuel ih =>
    intro s h1 h2 h3
    unfold runLoopAux
    split
    · rename_i hg
      obtain ⟨g1, g2, g3⟩ := loopStep_inv env opts s hg.1 h1 h3
      exact ih _ g1 g2 g3
    · exact ⟨h1, h2, h3⟩

/-- C7: for every plan, every option record and every environment
behaviour — including Oracle calls that always throw and failing
command executions — the loop function is total and returns the full
summary object, whose fields are mutually consistent: `failureCount`
counts `failures`, `completed` equals `success`, at most
`maxIterations` iterations ran, completed steps never exceed the final
plan length, every reassessment is matched by a recorded failure, and
`successRate` is the completed count over the final plan length as a
percentage. -/
theorem loop_summary_total (steps : List Text) (opts : LoopOpts) (env : LoopEnv) :
    (runSummary steps opts env).failureCount = (runSummary steps opts env).failures.length ∧
    (runSummary steps opts env).completed = (runSummary steps opts env).success ∧
    (runSummary steps opts env).iterations ≤ opts.maxIterations ∧
    (runSummary steps opts env).completedSteps.length ≤ (runSummary steps opts env).totalSteps ∧
    (runSummary steps opts env).reassessments ≤ (runSummary steps opts env).failureCount ∧
    (runSummary steps opts env).successRate =
      ((runSummary steps opts env).completedSteps.length : ℚ) /
        ((runSummary steps opts env).totalSteps : ℚ) * 100 := by
  obtain ⟨g1, g2, g3⟩ := runLoopAux_inv env opts
    (opts.maxIterations - (initState steps).iteration) (initState steps)
    rfl (by simp [initState]) (by simp [initState])
  have hit : (runLoop env opts (initState steps)).iteration ≤ opts.maxIterations :=
    runLoopAux_iteration_le env opts _ _ (by simp [initState])
  unfold runSummary mkSummary runLoop
  dsimp only
  refine ⟨rfl, rfl, hit, ?_, g3, rfl⟩
  rw [g1]
  exact g2

/-- C8: whenever the final state has exhausted `maxIterations` with the
cursor short of the end of the plan, the summary reports
`success = false` and `reachedMaxIterations = true`; and in every run
`totalSteps` is the final (possibly revised) plan length and
`successRate` equals the completed count divided by that final plan
length, as a percentage. -/
theorem exhaustion_summary (steps : List Text) (opts : LoopOpts) (env : LoopEnv)
    (hexh : opts.maxIterations ≤ (runLoop env opts (initState steps)).iteration)
    (hinc : (runLoop env opts (initState steps)).idx <
      (runLoop env opts (initState steps)).currentSteps.length) :
    (runSummary steps opts env).success = false ∧
    (runSummary steps opts env).reachedMaxIterations = true ∧
    (runSummary steps opts env).totalSteps =
      (runLoop env opts (initState steps)).currentSteps.length ∧
    (runSummary steps opts env).successRate =
      ((runLoop env opts (initState steps)).completedSteps.length : ℚ) /
        ((runLoop env opts (initState steps)).currentSteps.length : ℚ) * 100 := by
  unfold runSummary mkSummary
  refine ⟨?_, ?_, rfl, rfl⟩
  · simp only [decide_eq_false_iff_not]
    omega
  · simp only [decide_eq_true_eq]
    exact hexh

/-- Witness for C8 at a concrete exhausted run. -/
theorem exhaustion_summary_witness :
    (c8Opts.maxIterations ≤ (runLoop c4Env c8Opts (initState [["alpha"]])).iteration ∧
      (runLoop c4Env c8Opts (initState [["alpha"]])).idx <
        (runLoop c4Env c8Opts (initState [["alpha"]])).currentSteps.length) ∧
      (runSummary [["alpha"]] c8Opts c4Env).success = false ∧
      (runSummary [["alpha"]] c8Opts c4Env).reachedMaxIterations = true :=
  ⟨⟨by decide, by decide⟩,
    (exhaustion_summary [["alpha"]] c8Opts c4Env (by decide) (by decide)).1,
    (exhaustion_summary [["alpha"]] c8Opts c4Env (by decide) (by decide)).2.1⟩

end Lumen

